import Mathlib

/-!
Verification development for a spreadsheet formula engine
(cell references, expression lexer/parser, tree-walking evaluator,
cell/table orchestration).

The Python source is shallowly embedded:
* strings are `List Char` (`Str`), restricted to the ASCII behaviour the
  engine exercises (the source only ever feeds ASCII operators, digits and
  Latin letters through these paths);
* Python numbers are idealised as exact rationals `ℚ` (the single rounded
  division operator is modelled as exact rational rounding, half to even,
  matching `round(x, 3)` on inputs where the float is exact);
* exceptions become `Except`;
* the evaluator's unbounded mutual recursion through the cell-value
  resolver callback is given a fuel parameter; running out of fuel is a
  distinguished error that never occurs at the inputs used in theorems.
-/

abbrev Str := List Char

/-- ASCII whitespace, the only whitespace the engine's inputs contain
(Python's `str.strip` also strips other Unicode whitespace). -/
def isSpaceChar (c : Char) : Bool :=
  c = ' ' || c = '\t' || c = '\n' || c = '\r'

/-- Model of `str.strip()` : drop whitespace from both ends. -/
def stripChars (l : Str) : Str :=
  ((l.dropWhile isSpaceChar).reverse.dropWhile isSpaceChar).reverse

/-- ASCII `str.upper()` on a single character. -/
def toUpperChar (c : Char) : Char :=
  if 97 ≤ c.toNat ∧ c.toNat ≤ 122 then Char.ofNat (c.toNat - 32) else c

/-- ASCII `str.lower()` on a single character. -/
def toLowerChar (c : Char) : Char :=
  if 65 ≤ c.toNat ∧ c.toNat ≤ 90 then Char.ofNat (c.toNat + 32) else c

def isUpperAlpha (c : Char) : Bool := 65 ≤ c.toNat && c.toNat ≤ 90

def isDigitChar (c : Char) : Bool := 48 ≤ c.toNat && c.toNat ≤ 57

/-- Does `pat` occur at the front of `s`? -/
def leadsWith : Str → Str → Bool
  | [], _ => true
  | _ :: _, [] => false
  | p :: ps, c :: cs => p = c && leadsWith ps cs

/-- Python's substring test `pat in hay`. -/
def strContains (hay pat : Str) : Bool :=
  if leadsWith pat hay then true
  else match hay with
    | [] => false
    | _ :: rest => strContains rest pat

/-- Value of a digit string (no sign), as `int()` computes it. -/
def digitsToNat (l : Str) : Nat :=
  l.foldl (fun a c => a * 10 + (c.toNat - 48)) 0

/-- Decimal digits, fuelled for structural recursion (the value strictly
decreases each step, so fuel `n` always suffices for input `n`). -/
def natDigitsAux : Nat → Nat → Str
  | 0, _ => []
  | Nat.succ f, n =>
    if n = 0 then []
    else natDigitsAux f (n / 10) ++ [Char.ofNat (48 + n % 10)]

/-- Decimal digits of `n`, most significant first; `[]` for `0`. -/
def natDigits (n : Nat) : Str := natDigitsAux n n

/-- Python `str(n)` for a natural number. -/
def natRepr (n : Nat) : Str :=
  if n = 0 then ['0'] else natDigits n

/-- Python `int(s)` restricted to an optional sign followed by decimal
digits (digit-group underscores are not modelled; the engine's literals
never contain them). Returns `none` where `int()` raises `ValueError`. -/
def parseIntStr (s : Str) : Option Int :=
  let core : Str → Option Nat := fun ds =>
    if ds ≠ [] ∧ ds.all isDigitChar then some (digitsToNat ds) else none
  match s with
  | '+' :: ds => (core ds).map (fun n => (n : Int))
  | '-' :: ds => (core ds).map (fun n => -(n : Int))
  | ds => (core ds).map (fun n => (n : Int))

/-! ## CellReference (`src/domain/value_objects/cell_reference.py`) -/

/-- Model of `CellReference` dataclass: column letters and 1-based row.
Validation done by `__post_init__` is modelled by `mkCellRef`. -/
structure CellRefV where
  column : Str
  row : Nat
deriving DecidableEq, Repr

/-- The `__post_init__` validation: column non-empty, all uppercase
alphabetic, row ≥ 1.  `ValueError` becomes `none`. -/
def mkCellRef (column : Str) (row : Nat) : Option CellRefV :=
  if column ≠ [] ∧ column.all isUpperAlpha ∧ 1 ≤ row then
    some ⟨column, row⟩
  else none

/-- Model of `_column_to_index` before the final `- 1`: bijective base-26 value
(A=1, …, Z=26, AA=27, …). -/
def columnVal (column : Str) : Nat :=
  column.foldl (fun ix c => ix * 26 + (c.toNat - 64)) 0

/-- Model of `CellReference._column_to_index` (0-based column index).  On the
validated domain `columnVal ≥ 1`, so natural subtraction agrees with
Python's `int` subtraction. -/
def columnToIndex (column : Str) : Nat := columnVal column - 1

/-- Loop of `CellReference._index_to_column`, fuelled for structural
recursion (the loop variable strictly decreases each iteration, so fuel
equal to its initial value always suffices). -/
def idxLoopAux : Nat → Nat → Str → Str
  | 0, _, acc => acc
  | Nat.succ _, 0, acc => acc
  | Nat.succ f, Nat.succ j, acc =>
    idxLoopAux f (j / 26) (Char.ofNat (65 + j % 26) :: acc)

/-- Model of `CellReference._index_to_column`. -/
def indexToColumn (index : Nat) : Str := idxLoopAux (index + 1) (index + 1) []

/-- Model of `CellReference.to_indices` : 0-based (row, col). -/
def CellRefV.toIndices (r : CellRefV) : Nat × Nat :=
  (r.row - 1, columnToIndex r.column)

/-- Model of `CellReference.from_indices`. -/
def fromIndices (rowIndex colIndex : Nat) : Option CellRefV :=
  mkCellRef (indexToColumn colIndex) (rowIndex + 1)

/-- Model of `CellReference.to_string` : column letters followed by the row. -/
def CellRefV.toStr (r : CellRefV) : Str := r.column ++ natRepr r.row

/-- Model of `CellReference.from_string` : strip, uppercase, match
`^([A-Z]+)(\d+)$` (greedy letters then digits covering the whole string),
then validate via the constructor. -/
def fromString (s : Str) : Option CellRefV :=
  let t := (stripChars s).map toUpperChar
  let letters := t.takeWhile isUpperAlpha
  let rest := t.dropWhile isUpperAlpha
  if letters ≠ [] ∧ rest ≠ [] ∧ rest.all isDigitChar then
    mkCellRef letters (digitsToNat rest)
  else none

/-! ## AST (`src/domain/value_objects/expression_ast.py`) -/

/-- The four AST node variants.  Operators are kept as strings exactly as
the Python parser emits them ('+', '-', '*', '/', '^', '=', '<', '>',
'and', 'or', 'not'), so the evaluator's unknown-operator branches remain
representable. -/
inductive ASTNode where
  | number (value : Int)
  | cellRef (reference : CellRefV)
  | unaryOp (operator : Str) (operand : ASTNode)
  | binaryOp (operator : Str) (left right : ASTNode)
deriving DecidableEq, Repr

/-! ## Lexer (`ExpressionParser._tokenize`) -/

inductive TokType where
  | number | cellRefTok | power | equal | less | greater
  | plus | minus | multiply | divide
  | notKw | andKw | orKw | lparen | rparen | eof
deriving DecidableEq, Repr

structure Token where
  ttype : TokType
  value : Str
  position : Nat
deriving DecidableEq, Repr

/-- Syntax errors (`ExpressionSyntaxError`), collapsed to their kind and
source position; `fuelOut` is a modelling artefact that cannot occur at
the fuel the top-level parser supplies. -/
inductive SynErr where
  | emptyExpr
  | unknownChar (pos : Nat)
  | unexpectedToken (pos : Nat)
  | badCellRef (pos : Nat)
  | fuelOut
deriving DecidableEq, Repr

/-- A regex word character (`\w`), for the `\b` boundaries around the
keyword patterns `\bnot\b`, `\band\b`, `\bor\b`. -/
def isWordChar (c : Char) : Bool :=
  isDigitChar c || isUpperAlpha c || (97 ≤ c.toNat && c.toNat ≤ 122) || c = '_'

/-- Does the keyword `kw` match at the front of `l`, with a right word
boundary after it?  (The left boundary is checked by the caller.) -/
def keywordAt (kw : Str) (l : Str) : Bool :=
  leadsWith kw l &&
    (match l.drop kw.length with
     | [] => true
     | c :: _ => !isWordChar c)

/-- One tokenisation step at the current position: try the patterns in
the order `TOKEN_PATTERNS` lists them and return the token together with
the number of characters consumed.  `prev` is the character before the
current position (for the keyword `\b` left boundaries).  Returns `none`
on an unmatched character. -/
def matchToken (prev : Option Char) (l : Str) (pos : Nat) : Option (Token × Nat) :=
  let digits := l.takeWhile isDigitChar
  let letters := l.takeWhile isUpperAlpha
  let afterLetters := l.dropWhile isUpperAlpha
  let lettersDigits := afterLetters.takeWhile isDigitChar
  let leftBoundary : Bool := match prev with
    | none => true
    | some c => !isWordChar c
  if digits ≠ [] then
    some (⟨.number, digits, pos⟩, digits.length)
  else if letters ≠ [] ∧ lettersDigits ≠ [] then
    some (⟨.cellRefTok, letters ++ lettersDigits, pos⟩,
          letters.length + lettersDigits.length)
  else match l with
    | '^' :: _ => some (⟨.power, ['^'], pos⟩, 1)
    | '=' :: _ => some (⟨.equal, ['='], pos⟩, 1)
    | '<' :: _ => some (⟨.less, ['<'], pos⟩, 1)
    | '>' :: _ => some (⟨.greater, ['>'], pos⟩, 1)
    | '+' :: _ => some (⟨.plus, ['+'], pos⟩, 1)
    | '-' :: _ => some (⟨.minus, ['-'], pos⟩, 1)
    | '*' :: _ => some (⟨.multiply, ['*'], pos⟩, 1)
    | '/' :: _ => some (⟨.divide, ['/'], pos⟩, 1)
    | _ =>
      if leftBoundary ∧ keywordAt ['n','o','t'] l then
        some (⟨.notKw, ['n','o','t'], pos⟩, 3)
      else if leftBoundary ∧ keywordAt ['a','n','d'] l then
        some (⟨.andKw, ['a','n','d'], pos⟩, 3)
      else if leftBoundary ∧ keywordAt ['o','r'] l then
        some (⟨.orKw, ['o','r'], pos⟩, 2)
      else match l with
        | '(' :: _ => some (⟨.lparen, ['('], pos⟩, 1)
        | ')' :: _ => some (⟨.rparen, [')'], pos⟩, 1)
        | _ => none

/-- The tokenisation loop.  `fuel` only bounds the iteration count; each
step consumes at least one character, so `length + 2` fuel always
suffices. -/
def tokenizeLoop (fuel : Nat) (prev : Option Char) (l : Str) (pos : Nat) :
    Except SynErr (List Token) :=
  match fuel with
  | 0 => throw .fuelOut
  | Nat.succ f =>
    match l with
    | [] => pure [⟨.eof, [], pos⟩]
    | c :: rest =>
      if isSpaceChar c then tokenizeLoop f (some c) rest (pos + 1)
      else match matchToken prev (c :: rest) pos with
        | some (tok, n) => do
          let more ← tokenizeLoop f (((c :: rest).take n).getLast? )
                       ((c :: rest).drop n) (pos + n)
          pure (tok :: more)
        | none => throw (.unknownChar pos)

/-- Model of `ExpressionParser._tokenize`. -/
def tokenize (l : Str) : Except SynErr (List Token) :=
  tokenizeLoop (l.length + 2) none l 0

/-! ## Parser (`ExpressionParser._parse_*`) -/

/-- Model of `ExpressionParser._current_token`: the token at `pos`, or the final
(EOF) token past the end. -/
def currentToken (toks : List Token) (pos : Nat) : Token :=
  toks.getD pos (toks.getLastD ⟨.eof, [], 0⟩)

def opAdd : Str := ['+']
def opSub : Str := ['-']
def opMul : Str := ['*']
def opDiv : Str := ['/']
def opPow : Str := ['^']
def opEq : Str := ['=']
def opLt : Str := ['<']
def opGt : Str := ['>']
def opAnd : Str := ['a','n','d']
def opOr : Str := ['o','r']
def opNot : Str := ['n','o','t']

mutual

def parseExpression (fuel : Nat) (toks : List Token) (pos : Nat) :
    Except SynErr (ASTNode × Nat) :=
  match fuel with
  | 0 => throw .fuelOut
  | Nat.succ f => parseLogicalOr f toks pos
termination_by structural fuel

def parseLogicalOr (fuel : Nat) (toks : List Token) (pos : Nat) :
    Except SynErr (ASTNode × Nat) :=
  match fuel with
  | 0 => throw .fuelOut
  | Nat.succ f => do
    let (left, p) ← parseLogicalAnd f toks pos
    parseOrLoop f toks left p
termination_by structural fuel

def parseOrLoop (fuel : Nat) (toks : List Token) (left : ASTNode) (pos : Nat) :
    Except SynErr (ASTNode × Nat) :=
  match fuel with
  | 0 => throw .fuelOut
  | Nat.succ f =>
    if (currentToken toks pos).ttype = .orKw then do
      let (right, p) ← parseLogicalAnd f toks (pos + 1)
      parseOrLoop f toks (.binaryOp opOr left right) p
    else pure (left, pos)
termination_by structural fuel

def parseLogicalAnd (fuel : Nat) (toks : List Token) (pos : Nat) :
    Except SynErr (ASTNode × Nat) :=
  match fuel with
  | 0 => throw .fuelOut
  | Nat.succ f => do
    let (left, p) ← parseComparison f toks pos
    parseAndLoop f toks left p
termination_by structural fuel

def parseAndLoop (fuel : Nat) (toks : List Token) (left : ASTNode) (pos : Nat) :
    Except SynErr (ASTNode × Nat) :=
  match fuel with
  | 0 => throw .fuelOut
  | Nat.succ f =>
    if (currentToken toks pos).ttype = .andKw then do
      let (right, p) ← parseComparison f toks (pos + 1)
      parseAndLoop f toks (.binaryOp opAnd left right) p
    else pure (left, pos)
termination_by structural fuel

def parseComparison (fuel : Nat) (toks : List Token) (pos : Nat) :
    Except SynErr (ASTNode × Nat) :=
  match fuel with
  | 0 => throw .fuelOut
  | Nat.succ f => do
    let (left, p) ← parseAdditive f toks pos
    let t := currentToken toks p
    if t.ttype = .equal then do
      let (right, p2) ← parseAdditive f toks (p + 1)
      pure (.binaryOp opEq left right, p2)
    else if t.ttype = .less then do
      let (right, p2) ← parseAdditive f toks (p + 1)
      pure (.binaryOp opLt left right, p2)
    else if t.ttype = .greater then do
      let (right, p2) ← parseAdditive f toks (p + 1)
      pure (.binaryOp opGt left right, p2)
    else pure (left, p)
termination_by structural fuel

def parseAdditive (fuel : Nat) (toks : List Token) (pos : Nat) :
    Except SynErr (ASTNode × Nat) :=
  match fuel with
  | 0 => throw .fuelOut
  | Nat.succ f => do
    let (left, p) ← parseMultiplicative f toks pos
    parseAddLoop f toks left p
termination_by structural fuel

def parseAddLoop (fuel : Nat) (toks : List Token) (left : ASTNode) (pos : Nat) :
    Except SynErr (ASTNode × Nat) :=
  match fuel with
  | 0 => throw .fuelOut
  | Nat.succ f =>
    let t := currentToken toks pos
    if t.ttype = .plus ∨ t.ttype = .minus then do
      let (right, p) ← parseMultiplicative f toks (pos + 1)
      let op := if t.ttype = .plus then opAdd else opSub
      parseAddLoop f toks (.binaryOp op left right) p
    else pure (left, pos)
termination_by structural fuel

def parseMultiplicative (fuel : Nat) (toks : List Token) (pos : Nat) :
    Except SynErr (ASTNode × Nat) :=
  match fuel with
  | 0 => throw .fuelOut
  | Nat.succ f => do
    let (left, p) ← parsePowerExpr f toks pos
    parseMulLoop f toks left p
termination_by structural fuel

def parseMulLoop (fuel : Nat) (toks : List Token) (left : ASTNode) (pos : Nat) :
    Except SynErr (ASTNode × Nat) :=
  match fuel with
  | 0 => throw .fuelOut
  | Nat.succ f =>
    let t := currentToken toks pos
    if t.ttype = .multiply ∨ t.ttype = .divide then do
      let (right, p) ← parsePowerExpr f toks (pos + 1)
      let op := if t.ttype = .multiply then opMul else opDiv
      parseMulLoop f toks (.binaryOp op left right) p
    else pure (left, pos)
termination_by structural fuel

def parsePowerExpr (fuel : Nat) (toks : List Token) (pos : Nat) :
    Except SynErr (ASTNode × Nat) :=
  match fuel with
  | 0 => throw .fuelOut
  | Nat.succ f => do
    let (left, p) ← parseUnaryExpr f toks pos
    if (currentToken toks p).ttype = .power then do
      let (right, p2) ← parsePowerExpr f toks (p + 1)
      pure (.binaryOp opPow left right, p2)
    else pure (left, p)
termination_by structural fuel

def parseUnaryExpr (fuel : Nat) (toks : List Token) (pos : Nat) :
    Except SynErr (ASTNode × Nat) :=
  match fuel with
  | 0 => throw .fuelOut
  | Nat.succ f =>
    let t := currentToken toks pos
    if t.ttype = .plus then do
      let (operand, p) ← parseUnaryExpr f toks (pos + 1)
      pure (.unaryOp opAdd operand, p)
    else if t.ttype = .minus then do
      let (operand, p) ← parseUnaryExpr f toks (pos + 1)
      pure (.unaryOp opSub operand, p)
    else if t.ttype = .notKw then do
      let (operand, p) ← parseUnaryExpr f toks (pos + 1)
      pure (.unaryOp opNot operand, p)
    else parsePrimary f toks pos
termination_by structural fuel

def parsePrimary (fuel : Nat) (toks : List Token) (pos : Nat) :
    Except SynErr (ASTNode × Nat) :=
  match fuel with
  | 0 => throw .fuelOut
  | Nat.succ f =>
    let t := currentToken toks pos
    if t.ttype = .number then
      pure (.number (digitsToNat t.value), pos + 1)
    else if t.ttype = .cellRefTok then
      match fromString t.value with
      | some ref => pure (.cellRef ref, pos + 1)
      | none => throw (.badCellRef t.position)
    else if t.ttype = .lparen then do
      let (e, p) ← parseExpression f toks (pos + 1)
      if (currentToken toks p).ttype = .rparen then pure (e, p + 1)
      else throw (.unexpectedToken (currentToken toks p).position)
    else throw (.unexpectedToken t.position)
termination_by structural fuel

end

/-- Model of `ExpressionParser.parse`: strip, reject empty, tokenize, parse the
top-level expression, reject trailing input. -/
def parseExpr (raw : Str) : Except SynErr ASTNode := do
  let expression := stripChars raw
  if expression = [] then throw .emptyExpr
  let toks ← tokenize expression
  let (ast, p) ← parseExpression (16 * (toks.length + 2)) toks 0
  if (currentToken toks p).ttype = .eof then pure ast
  else throw (.unexpectedToken (currentToken toks p).position)

/-! ## Cell (`src/domain/entities/cell.py`) -/

/-- The errors a cell can store (the Python code stores formatted message
strings; the structured form used here is injective on those messages for
the branches the code can reach). -/
inductive EvalErr where
  | circular (ref : Str)
  | divZero
  | negExponent
  | nonIntegerExponent
  | unknownUnaryOp (op : Str)
  | unknownBinaryOp (op : Str)
  | cellRefErr (ref : Str) (inner : EvalErr)
  | excCellHasError (ref : Str)
  | excNonNumericLiteral (ref : Str)
  | excNotParsed (ref : Str)
  | excUnknownContent (ref : Str)
  | excIndexError
  | fuelOut
deriving DecidableEq, Repr

/-- The `error` field of a cell, tagged with the `except` branch of
`TableService` that stored it (each branch prefixes the message
differently). -/
inductive CellError where
  | syntaxError (e : SynErr)
  | circularRef (e : EvalErr)
  | domainError (e : EvalErr)
  | otherError (e : EvalErr)
deriving DecidableEq, Repr

structure Cell where
  expression : Str
  ast : Option ASTNode
  cached_value : Option ℚ
  error : Option CellError
  is_dirty : Bool
deriving DecidableEq, Repr

/-- Model of `Cell()` : created empty. -/
def emptyCell : Cell := ⟨[], none, none, none, true⟩

/-- Model of `Cell.invalidate`. -/
def Cell.invalidate (c : Cell) : Cell :=
  { c with ast := none, cached_value := none, error := none, is_dirty := true }

/-- The `expression` property setter: invalidate only when the text
actually changes. -/
def Cell.setExpression (c : Cell) (v : Str) : Cell :=
  if c.expression ≠ v then { c.invalidate with expression := v } else c

/-- The `cached_value` property setter (clears the dirty flag even when
storing `none`). -/
def Cell.setCachedValue (c : Cell) (v : Option ℚ) : Cell :=
  { c with cached_value := v, is_dirty := false }

/-- The `error` property setter. -/
def Cell.setError (c : Cell) (e : Option CellError) : Cell :=
  { c with error := e }

def Cell.is_empty (c : Cell) : Bool := stripChars c.expression = []

def Cell.has_error (c : Cell) : Bool := c.error.isSome

def Cell.is_formula (c : Cell) : Bool :=
  match stripChars c.expression with
  | '=' :: _ => true
  | _ => false

/-- Model of `Cell.get_formula_expression` : the text after the leading `=`. -/
def Cell.formulaText (c : Cell) : Str :=
  if c.is_formula then stripChars ((stripChars c.expression).drop 1) else []

def Cell.is_literal (c : Cell) : Bool := !c.is_empty && !c.is_formula

/-- Model of `Cell.is_boolean_expression` : the lowercased formula text contains
one of the logical-operator substrings. -/
def Cell.is_boolean_expression (c : Cell) : Bool :=
  if !c.is_formula then false
  else
    let formula := c.formulaText.map toLowerChar
    [opAnd, opOr, opNot, opEq, opLt, opGt].any (fun op => strContains formula op)

/-- The presentable string `Cell.get_display_value` produces, with the
numeric rendering abstracted into a constructor carrying the exact
value. -/
inductive DisplayValue where
  | errorMarker
  | literal (s : Str)
  | boolTrue
  | boolFalse
  | number (q : ℚ)
  | emptyDisplay
  | pending
deriving DecidableEq, Repr

/-- Model of `Cell.get_display_value`. -/
def Cell.getDisplayValue (c : Cell) : DisplayValue :=
  if c.has_error then .errorMarker
  else if c.is_literal then .literal (stripChars c.expression)
  else match c.cached_value with
    | some v =>
      if c.is_boolean_expression then
        (if v ≠ 0 then .boolTrue else .boolFalse)
      else .number v
    | none => if c.is_empty then .emptyDisplay else .pending

/-! ## Table (`src/domain/entities/table.py`) -/

/-- The table's sparse cell map: an insertion-ordered association list,
matching the insertion-order semantics of the Python `dict`. -/
structure Table where
  rows : Nat
  columns : Nat
  cells : List ((Nat × Nat) × Cell)
deriving DecidableEq, Repr

def Table.findCell (t : Table) (r c : Nat) : Option Cell :=
  (t.cells.find? (fun p => p.1 = (r, c))).map (·.2)

/-- Model of `Table.get_cell` as a pure read: bounds-check (`IndexError` becomes
`Except.error`), then the stored cell or a fresh empty one.  The Python
version also inserts the fresh empty cell into the dict; that insertion
is observationally inert for every observation made in this development
(an absent entry and a stored empty cell answer every read identically,
and exports filter empty cells), so it is dropped here. -/
def Table.getCellE (t : Table) (r c : Nat) : Except Unit Cell :=
  if r < t.rows ∧ c < t.columns then
    pure ((t.findCell r c).getD emptyCell)
  else throw ()

/-- In-place update of the cell at a key, materialising an empty cell
first when the key is absent (the write-path counterpart of
`Table.get_cell`'s lazy materialisation). -/
def updateCellList (key : Nat × Nat) (f : Cell → Cell) :
    List ((Nat × Nat) × Cell) → List ((Nat × Nat) × Cell)
  | [] => [(key, f emptyCell)]
  | (k, c) :: rest =>
    if k = key then (k, f c) :: rest else (k, c) :: updateCellList key f rest

/-- Bounds-checked mutation of one cell. -/
def Table.modifyCell (t : Table) (r c : Nat) (f : Cell → Cell) :
    Except Unit Table :=
  if r < t.rows ∧ c < t.columns then
    pure { t with cells := updateCellList (r, c) f t.cells }
  else throw ()

/-- Model of `Table.resize` : prune cells outside the new bounds (only when
shrinking), then store the new dimensions.  `ValueError` on dimensions
below 1. -/
def Table.resize (t : Table) (rows columns : Nat) : Except Unit Table :=
  if rows < 1 ∨ columns < 1 then throw ()
  else
    let pruned :=
      if rows < t.rows ∨ columns < t.columns then
        t.cells.filter (fun p => p.1.1 < rows ∧ p.1.2 < columns)
      else t.cells
    pure { rows := rows, columns := columns, cells := pruned }

/-- Model of `Table.get_all_cells` : all non-empty cells, in insertion order. -/
def Table.getAllCells (t : Table) : List (Nat × Nat × Cell) :=
  t.cells.filterMap (fun p =>
    if p.2.is_empty then none else some (p.1.1, p.1.2, p.2))

/-- Model of `Table.invalidate_all`. -/
def Table.invalidateAll (t : Table) : Table :=
  { t with cells := t.cells.map (fun p => (p.1, p.2.invalidate)) }

/-! ## Evaluator (`src/application/services/expression_evaluator.py`)
    and the resolver callback
    (`TableService._get_cell_value_for_evaluator`) -/

/-- Python `round(q, 3)` idealised on exact rationals: round
`1000 * q` to the nearest integer, ties to even, divide back. -/
def roundTo3 (q : ℚ) : ℚ :=
  let s := q * 1000
  let n : ℤ := Rat.floor s
  let frac := s - (n : ℚ)
  let r : ℤ :=
    if frac < 1/2 then n
    else if (1:ℚ)/2 < frac then n + 1
    else if n % 2 = 0 then n else n + 1
  (r : ℚ) / 1000

/-- Model of `TableService._get_cell_value_for_evaluator`, the resolver callback:
empty cells are 0, literals are parsed with `int()`, formulas are
re-evaluated through their AST via the evaluator the service installed
(`evalFn`, sharing the same visited set).  The `exc*` errors model the
plain `Exception`s this function raises; an out-of-bounds reference is
the `IndexError` that `Table.get_cell` raises. -/
def resolveCell (t : Table)
    (evalFn : List Str → ASTNode → Except EvalErr ℚ)
    (visited : List Str) (ref : CellRefV) : Except EvalErr ℚ :=
  let (r, c) := ref.toIndices
  match t.getCellE r c with
  | .error _ => throw .excIndexError
  | .ok cell =>
    if cell.has_error then throw (.excCellHasError ref.toStr)
    else if cell.is_empty then pure 0
    else if cell.is_literal then
      match parseIntStr (stripChars cell.expression) with
      | some n => pure (n : ℚ)
      | none => throw (.excNonNumericLiteral ref.toStr)
    else if cell.is_formula then
      match cell.ast with
      | none => throw (.excNotParsed ref.toStr)
      | some ast => evalFn visited ast
    else throw (.excUnknownContent ref.toStr)

/-- The visitor walk of `ExpressionEvaluator` (`visit_number`,
`visit_unary_op`, `visit_binary_op`, `visit_cell_ref`) over a fixed
table, with the per-evaluation visited set threaded explicitly (the
Python instance set is added to before the resolver call and discarded
in `finally`, which is exactly value-threading).  `fuel` decreases on
every recursive step; `fuelOut` never occurs at the fuel supplied by
`TableService` paths for the inputs used in theorems. -/
def evalAst (t : Table) (fuel : Nat) (visited : List Str) :
    ASTNode → Except EvalErr ℚ
  | .number v => pure (v : ℚ)
  | .unaryOp op e =>
    match fuel with
    | 0 => throw .fuelOut
    | Nat.succ f => do
      let x ← evalAst t f visited e
      if op = opAdd then pure x
      else if op = opSub then pure (-x)
      else if op = opNot then pure (if x = 0 then 1 else 0)
      else throw (.unknownUnaryOp op)
  | .binaryOp op l r =>
    match fuel with
    | 0 => throw .fuelOut
    | Nat.succ f =>
      if op = opAdd then do
        let a ← evalAst t f visited l
        let b ← evalAst t f visited r
        pure (a + b)
      else if op = opSub then do
        let a ← evalAst t f visited l
        let b ← evalAst t f visited r
        pure (a - b)
      else if op = opMul then do
        let a ← evalAst t f visited l
        let b ← evalAst t f visited r
        pure (a * b)
      else if op = opDiv then do
        let a ← evalAst t f visited l
        let b ← evalAst t f visited r
        if b = 0 then throw .divZero
        else pure (roundTo3 (a / b))
      else if op = opPow then do
        let a ← evalAst t f visited l
        let b ← evalAst t f visited r
        if b < 0 then throw .negExponent
        else if b.den = 1 then pure (a ^ b.num.toNat)
        else throw .nonIntegerExponent
      else if op = opEq then do
        let a ← evalAst t f visited l
        let b ← evalAst t f visited r
        pure (if a = b then 1 else 0)
      else if op = opLt then do
        let a ← evalAst t f visited l
        let b ← evalAst t f visited r
        pure (if a < b then 1 else 0)
      else if op = opGt then do
        let a ← evalAst t f visited l
        let b ← evalAst t f visited r
        pure (if a > b then 1 else 0)
      else if op = opAnd then do
        let a ← evalAst t f visited l
        if a = 0 then pure 0
        else do
          let b ← evalAst t f visited r
          pure (if b ≠ 0 then 1 else 0)
      else if op = opOr then do
        let a ← evalAst t f visited l
        if a ≠ 0 then pure 1
        else do
          let b ← evalAst t f visited r
          pure (if b ≠ 0 then 1 else 0)
      else throw (.unknownBinaryOp op)
  | .cellRef ref =>
    let refStr := ref.toStr
    if refStr ∈ visited then throw (.circular refStr)
    else
      match fuel with
      | 0 => throw .fuelOut
      | Nat.succ f =>
        -- `visit_cell_ref` adds the reference, calls the resolver, and
        -- wraps ANY exception it raises (including a nested
        -- `CircularReferenceError`) as `CellReferenceError`.
        match resolveCell t (fun vis nd => evalAst t f vis nd)
            (refStr :: visited) ref with
        | .ok v => pure v
        | .error e => throw (.cellRefErr refStr e)

/-- Model of `ExpressionEvaluator.evaluate` : clear the visited set, seed it with
the current cell's textual reference, walk the tree.  Unexpected plain
exceptions would be wrapped as `EvaluationError`; in this model every
error the walk can produce is already one of the domain errors. -/
def evaluate (t : Table) (fuel : Nat) (ast : ASTNode)
    (currentCell : Option CellRefV) : Except EvalErr ℚ :=
  let visited := match currentCell with
    | some ref => [ref.toStr]
    | none => []
  evalAst t fuel visited ast

/-! ## TableService (`src/application/services/table_service.py`) -/

/-- Node count of an AST. -/
def astSize : ASTNode → Nat
  | .number _ => 1
  | .cellRef _ => 1
  | .unaryOp _ e => astSize e + 1
  | .binaryOp _ l r => astSize l + astSize r + 1

/-- The fuel `TableService` paths supply to the evaluator: generous with
respect to the table size (the Python recursion is bounded by the
visited set, whose size is bounded by the number of addressable cells,
times the sizes of the stored ASTs). -/
def tableFuel (t : Table) : Nat :=
  (t.rows * t.columns + 2) *
    ((t.cells.foldl (fun a p => a + (match p.2.ast with
        | some a2 => astSize a2
        | none => 0)) 0) + 16)

/-- The per-cell body of `TableService.set_cell_expression` : store the
text, then classify (empty / literal / formula) and parse formulas
immediately, recording a syntax error on failure. -/
def applyAssignment (expression : Str) (cell0 : Cell) : Cell :=
  let cell := cell0.setExpression expression
  if cell.is_empty then
    (cell.setCachedValue none).setError none
  else if cell.is_literal then
    ({ cell with ast := none }.setCachedValue none).setError none
  else if cell.is_formula then
    match parseExpr cell.formulaText with
    | .ok ast => { cell with ast := some ast }.setError none
    | .error e => ({ cell with error := some (.syntaxError e) }.setCachedValue none)
  else cell

/-- Model of `TableService.set_cell_expression`.  `Except.error` is the
`IndexError` of an out-of-bounds index. -/
def setCellExpression (t : Table) (row col : Nat) (expression : Str) :
    Except Unit Table :=
  t.modifyCell row col (applyAssignment expression)

/-- Model of `TableService._calculate_cell` : evaluate one cell's AST seeded with
its own reference, and store the outcome, classified by the `except`
branch that catches it. -/
def calcCell (t : Table) (row col : Nat) : Except Unit Table := do
  let cell ← t.getCellE row col
  if cell.is_empty ∨ cell.ast = none then pure t
  else
    match cell.ast with
    | none => pure t
    | some ast =>
      match fromIndices row col with
      | none => throw ()
      | some currentRef =>
        match evaluate t (tableFuel t) ast (some currentRef) with
        | .ok v =>
          t.modifyCell row col (fun c =>
            (c.setCachedValue (some v)).setError none)
        | .error e =>
          let stored : CellError :=
            match e with
            | .circular r => .circularRef (.circular r)
            | .fuelOut => .otherError .fuelOut
            | other => .domainError other
          t.modifyCell row col (fun c =>
            (c.setError (some stored)).setCachedValue none)

/-- Model of `TableService.calculate_all` : snapshot the non-empty cells, then
evaluate every formula cell with a parsed AST, in insertion order. -/
def calculateAll (t : Table) : Except Unit Table :=
  (t.getAllCells).foldlM
    (fun acc trip =>
      match trip with
      | (r, c, cell) =>
        if cell.is_formula && cell.ast.isSome then calcCell acc r c
        else pure acc)
    t

/-- Model of `TableService.resize_table` : resize, then invalidate every cell
(which clears cached values, errors AND parsed ASTs). -/
def resizeTable (t : Table) (rows columns : Nat) : Except Unit Table := do
  let t2 ← t.resize rows columns
  pure t2.invalidateAll

/-! ## Persistence snapshot
    (`TableService.get_table_data_for_export` / `load_table_data`) -/

structure SnapshotEntry where
  row : Nat
  col : Nat
  expression : Str
deriving DecidableEq, Repr

structure Snapshot where
  rows : Nat
  columns : Nat
  cells : List SnapshotEntry
deriving DecidableEq, Repr

/-- The export-view of a table's cell map: non-empty cells, in insertion
order. -/
def exportCells (t : Table) : List SnapshotEntry :=
  t.cells.filterMap (fun p =>
    if p.2.is_empty then none else some ⟨p.1.1, p.1.2, p.2.expression⟩)

/-- Model of `TableService.get_table_data_for_export`. -/
def exportTable (t : Table) : Snapshot :=
  ⟨t.rows, t.columns, exportCells t⟩

/-- Model of `TableService.load_table_data` : fresh table of the snapshot's
dimensions, replay every expression assignment, then one full
evaluation pass. -/
def loadTable (d : Snapshot) : Except Unit Table := do
  if d.rows < 1 ∨ d.columns < 1 then throw ()
  let t0 : Table := ⟨d.rows, d.columns, []⟩
  let t1 ← d.cells.foldlM
    (fun acc e => setCellExpression acc e.row e.col e.expression) t0
  calculateAll t1

/-! ## Helper unfolding lemmas for the evaluator -/

deriving instance DecidableEq for Except

lemma evalAst_and_unfold (t : Table) (f : Nat) (visited : List Str)
    (l r : ASTNode) :
    evalAst t (f + 1) visited (.binaryOp opAnd l r) =
      (do
        let a ← evalAst t f visited l
        if a = 0 then pure 0
        else do
          let b ← evalAst t f visited r
          pure (if b ≠ 0 then 1 else 0)) := rfl

lemma evalAst_or_unfold (t : Table) (f : Nat) (visited : List Str)
    (l r : ASTNode) :
    evalAst t (f + 1) visited (.binaryOp opOr l r) =
      (do
        let a ← evalAst t f visited l
        if a ≠ 0 then pure 1
        else do
          let b ← evalAst t f visited r
          pure (if b ≠ 0 then 1 else 0)) := rfl

lemma evalAst_div_unfold (t : Table) (f : Nat) (visited : List Str)
    (l r : ASTNode) :
    evalAst t (f + 1) visited (.binaryOp opDiv l r) =
      (do
        let a ← evalAst t f visited l
        let b ← evalAst t f visited r
        if b = 0 then throw .divZero
        else pure (roundTo3 (a / b))) := rfl

lemma evalAst_cellRef_mem (t : Table) (fuel : Nat) (visited : List Str)
    (ref : CellRefV) (h : ref.toStr ∈ visited) :
    evalAst t fuel visited (.cellRef ref) = .error (.circular ref.toStr) := by
  cases fuel <;> exact if_pos h

/-! ## Claim scenarios -/

/-- Build a fresh 1×1 table, assign the given text to A1, run one
evaluation pass, and return A1. -/
def runSingleCellA1 (s : String) : Except Unit Cell := do
  let t1 ← setCellExpression ⟨1, 1, []⟩ 0 0 s.toList
  let t2 ← calculateAll t1
  t2.getCellE 0 0

/-- Two-cell cycle: A1 = "=B1", B1 = "=A1", then one evaluation pass. -/
def twoCellCycleTable : Except Unit Table := do
  let t1 ← setCellExpression ⟨10, 10, []⟩ 0 0 "=B1".toList
  let t2 ← setCellExpression t1 0 1 "=A1".toList
  calculateAll t2

/-- C5: setting A1's expression to "=A1" and running an evaluation pass
records a circular-reference error on A1 (the `evaluate` call seeds the
visited set with A1's own reference, so the direct self-reference is
detected in the outermost frame and caught by the
`CircularReferenceError` branch of `_calculate_cell`), and A1 ends the
pass with no cached value. -/
theorem c5_direct_self_reference_circular :
    (runSingleCellA1 "=A1").map (fun c => (c.error, c.cached_value)) =
      .ok (some (.circularRef (.circular "A1".toList)), none) := by decide

/-- C7: the parser honours precedence — "2 + 3 * 4" parses with root '+'
and right child '*'(3,4) — and associates '^' to the right —
"2 ^ 3 ^ 2" parses as '^'(2, '^'(3,2)). -/
theorem c7_parser_precedence_associativity :
    parseExpr "2 + 3 * 4".toList =
      .ok (.binaryOp opAdd (.number 2)
            (.binaryOp opMul (.number 3) (.number 4))) ∧
    parseExpr "2 ^ 3 ^ 2".toList =
      .ok (.binaryOp opPow (.number 2)
            (.binaryOp opPow (.number 3) (.number 2))) := by
  constructor <;> decide

/-- C1 counterexample: in the two-cell cycle A1="=B1", B1="=A1" the cycle
is detected inside the recursive resolver-callback invocation, and the
error ultimately surfaced for A1 is the `CellReferenceError` produced by
the resolver-exception wrapper in `visit_cell_ref` (stored by the
`DomainException` branch of `_calculate_cell`) — not a
`CircularReferenceError` as the claim states. -/
theorem c1_counterexample_nested_cycle_wrapped :
    twoCellCycleTable.map (fun t => (t.findCell 0 0).map (fun c => c.error)) =
      .ok (some (some (.domainError
        (.cellRefErr "B1".toList (.circular "A1".toList))))) := by decide

/-- C1 (amended): when a cell-reference node's textual form is already in
the per-call visited set, evaluation raises `CircularReferenceError`;
however, when the cycle is detected inside a recursive resolver-callback
invocation, `visit_cell_ref`'s wrapper converts it, and the error
ultimately surfaced for the cell is a `CellReferenceError` carrying the
circular-reference error, as the two-cell cycle exhibits. -/
theorem c1_amended_visited_set_detection :
    (∀ (t : Table) (fuel : Nat) (visited : List Str) (ref : CellRefV),
        ref.toStr ∈ visited →
        evalAst t fuel visited (.cellRef ref) = .error (.circular ref.toStr)) ∧
    twoCellCycleTable.map (fun t => (t.findCell 0 0).map (fun c => c.error)) =
      .ok (some (some (.domainError
        (.cellRefErr "B1".toList (.circular "A1".toList))))) :=
  ⟨fun t fuel visited ref h => evalAst_cellRef_mem t fuel visited ref h,
   by decide⟩

/-- Witness for the amended C1 theorem at a concrete input. -/
theorem c1_amended_visited_set_detection_witness :
    evalAst ⟨1, 1, []⟩ 0 ["A1".toList] (.cellRef ⟨"A".toList, 1⟩) =
      .error (.circular (CellRefV.toStr ⟨"A".toList, 1⟩)) :=
  c1_amended_visited_set_detection.1 ⟨1, 1, []⟩ 0 ["A1".toList]
    ⟨"A".toList, 1⟩ (by decide)

/-- C6 scenario, first stage: a 2×2 table with A2 = "7" and B1 = "=A2",
evaluated (B1 caches 7), then resized to 1×2 (excluding A2) and
recalculated via `calculate_all`. -/
def c6ResizedTable : Except Unit Table := do
  let t1 ← setCellExpression ⟨2, 2, []⟩ 1 0 "7".toList
  let t2 ← setCellExpression t1 0 1 "=A2".toList
  let t3 ← calculateAll t2
  let t4 ← resizeTable t3 1 2
  calculateAll t4

/-- C6 scenario, second stage: B1's expression is assigned again (same
text, which re-parses it) and the table recalculated. -/
def c6ReassignedTable : Except Unit Table := do
  let t ← c6ResizedTable
  let t2 ← setCellExpression t 0 1 "=A2".toList
  calculateAll t2

/-- C6 (code-bug exhibit): after resizing 2×2 down to 1×2 (dropping A2)
and recalculating, the formula cell B1 = "=A2" carries NO error at all —
`resize_table` invalidates every cell (clearing its parsed AST) and
`calculate_all` skips AST-less cells, so the promised `CellReferenceError`
never surfaces and B1 is left pending with no cached value.  The second
conjunct shows the claim matches the machinery's intent: once B1 is
re-parsed and recalculated, the out-of-bounds reference does surface as a
`CellReferenceError` (wrapping the `IndexError` from `Table.get_cell`). -/
theorem c6_resize_skips_recalculation :
    (c6ResizedTable.map (fun t => (t.findCell 0 1).map
        (fun c => (c.error, c.cached_value, c.ast)))
      = .ok (some (none, none, none))) ∧
    (c6ReassignedTable.map (fun t => (t.findCell 0 1).map (fun c => c.error))
      = .ok (some (some (.domainError
          (.cellRefErr "A2".toList .excIndexError))))) := by
  constructor <;> decide

/-- C3: `and` evaluates the right operand only when the left is nonzero,
`or` only when the left is zero, and the produced value is always the
coercion to 1/0; end to end, "=0 and (1/0)" evaluates to 0 with no error
(the division by zero on the right is never evaluated), "=1 and 0"
evaluates to 0 and "=1 or 0" to 1. -/
theorem c3_and_or_short_circuit :
    (∀ (t : Table) (f : Nat) (visited : List Str) (l r : ASTNode),
        evalAst t f visited l = .ok 0 →
        evalAst t (f + 1) visited (.binaryOp opAnd l r) = .ok 0) ∧
    (∀ (t : Table) (f : Nat) (visited : List Str) (l r : ASTNode) (a : ℚ),
        evalAst t f visited l = .ok a → a ≠ 0 →
        evalAst t (f + 1) visited (.binaryOp opAnd l r) =
          (evalAst t f visited r).map (fun b => if b ≠ 0 then 1 else 0)) ∧
    (∀ (t : Table) (f : Nat) (visited : List Str) (l r : ASTNode) (a : ℚ),
        evalAst t f visited l = .ok a → a ≠ 0 →
        evalAst t (f + 1) visited (.binaryOp opOr l r) = .ok 1) ∧
    (∀ (t : Table) (f : Nat) (visited : List Str) (l r : ASTNode),
        evalAst t f visited l = .ok 0 →
        evalAst t (f + 1) visited (.binaryOp opOr l r) =
          (evalAst t f visited r).map (fun b => if b ≠ 0 then 1 else 0)) ∧
    (runSingleCellA1 "=0 and (1/0)").map (fun c => (c.cached_value, c.error))
      = .ok (some 0, none) ∧
    (runSingleCellA1 "=1 and 0").map (fun c => (c.cached_value, c.error))
      = .ok (some 0, none) ∧
    (runSingleCellA1 "=1 or 0").map (fun c => (c.cached_value, c.error))
      = .ok (some 1, none) := by
  refine ⟨?_, ?_, ?_, ?_, by decide, by decide, by decide⟩
  · intro t f visited l r h
    rw [evalAst_and_unfold]
    rw [show (do
          let a ← evalAst t f visited l
          if a = 0 then pure 0
          else do
            let b ← evalAst t f visited r
            pure (if b ≠ 0 then 1 else 0) : Except EvalErr ℚ) =
        Except.bind (evalAst t f visited l) (fun a =>
          if a = 0 then pure 0
          else Except.bind (evalAst t f visited r)
            (fun b => pure (if b ≠ 0 then 1 else 0))) from rfl]
    rw [h]
    rfl
  · intro t f visited l r a h ha
    rw [evalAst_and_unfold]
    rw [show (do
          let a ← evalAst t f visited l
          if a = 0 then pure 0
          else do
            let b ← evalAst t f visited r
            pure (if b ≠ 0 then 1 else 0) : Except EvalErr ℚ) =
        Except.bind (evalAst t f visited l) (fun a =>
          if a = 0 then pure 0
          else Except.bind (evalAst t f visited r)
            (fun b => pure (if b ≠ 0 then 1 else 0))) from rfl]
    rw [h]
    simp only [Except.bind, if_neg ha]
    cases evalAst t f visited r <;> rfl
  · intro t f visited l r a h ha
    rw [evalAst_or_unfold]
    rw [show (do
          let a ← evalAst t f visited l
          if a ≠ 0 then pure 1
          else do
            let b ← evalAst t f visited r
            pure (if b ≠ 0 then 1 else 0) : Except EvalErr ℚ) =
        Except.bind (evalAst t f visited l) (fun a =>
          if a ≠ 0 then pure 1
          else Except.bind (evalAst t f visited r)
            (fun b => pure (if b ≠ 0 then 1 else 0))) from rfl]
    rw [h]
    show (if a ≠ 0 then pure 1 else _) = _
    rw [if_pos ha]
    rfl
  · intro t f visited l r h
    rw [evalAst_or_unfold]
    rw [show (do
          let a ← evalAst t f visited l
          if a ≠ 0 then pure 1
          else do
            let b ← evalAst t f visited r
            pure (if b ≠ 0 then 1 else 0) : Except EvalErr ℚ) =
        Except.bind (evalAst t f visited l) (fun a =>
          if a ≠ 0 then pure 1
          else Except.bind (evalAst t f visited r)
            (fun b => pure (if b ≠ 0 then 1 else 0))) from rfl]
    rw [h]
    simp only [Except.bind, ne_eq, not_true_eq_false, if_false]
    cases evalAst t f visited r <;> rfl

/-- Witness for the quantified parts of the C3 theorem at concrete
inputs: left operand 0 short-circuits `and` (the right operand is the
erroring division 1/0 and is never evaluated). -/
theorem c3_and_or_short_circuit_witness :
    evalAst ⟨1, 1, []⟩ 2 []
      (.binaryOp opAnd (.number 0)
        (.binaryOp opDiv (.number 1) (.number 0))) = .ok 0 :=
  c3_and_or_short_circuit.1 ⟨1, 1, []⟩ 1 [] (.number 0)
    (.binaryOp opDiv (.number 1) (.number 0)) (by decide)

unseal Rat.mul Rat.inv Rat.add Rat.sub

/-- C4: evaluating a '/' node whose operands evaluate cleanly raises the
division-by-zero `EvaluationError` exactly when the divisor is 0, and
otherwise produces the exact quotient rounded to 3 decimal places; end to
end, "=5/2" caches exactly 5/2 = 2.5 and "=5/0" records the
division-by-zero evaluation error instead of crashing the pass. -/
theorem c4_division_rounded :
    (∀ (t : Table) (f : Nat) (visited : List Str) (l r : ASTNode) (a b : ℚ),
        evalAst t f visited l = .ok a →
        evalAst t f visited r = .ok b →
        evalAst t (f + 1) visited (.binaryOp opDiv l r) =
          (if b = 0 then .error .divZero else .ok (roundTo3 (a / b)))) ∧
    (runSingleCellA1 "=5/2").map (fun c => (c.cached_value, c.error))
      = .ok (some (5/2 : ℚ), none) ∧
    (runSingleCellA1 "=5/0").map (fun c => (c.cached_value, c.error))
      = .ok (none, some (.domainError .divZero)) := by
  refine ⟨?_, by decide, by decide⟩
  intro t f visited l r a b hl hr
  rw [evalAst_div_unfold]
  rw [show (do
        let a ← evalAst t f visited l
        let b ← evalAst t f visited r
        if b = 0 then throw .divZero
        else pure (roundTo3 (a / b)) : Except EvalErr ℚ) =
      Except.bind (evalAst t f visited l) (fun a =>
        Except.bind (evalAst t f visited r) (fun b =>
          if b = 0 then throw .divZero
          else pure (roundTo3 (a / b)))) from rfl]
  rw [hl, hr]
  show (if b = 0 then (throw EvalErr.divZero : Except EvalErr ℚ)
        else pure (roundTo3 (a / b))) =
    (if b = 0 then Except.error EvalErr.divZero
     else Except.ok (roundTo3 (a / b)))
  by_cases hb : b = 0
  · rw [if_pos hb, if_pos hb]
    rfl
  · rw [if_neg hb, if_neg hb]
    rfl

/-- Witness for the quantified part of the C4 theorem: 5 divided by 2 at
concrete operands yields exactly 5/2. -/
theorem c4_division_rounded_witness :
    evalAst ⟨1, 1, []⟩ 2 [] (.binaryOp opDiv (.number 5) (.number 2)) =
      (if (2 : ℚ) = 0 then .error .divZero else .ok (roundTo3 ((5 : ℚ) / 2))) :=
  c4_division_rounded.1 ⟨1, 1, []⟩ 1 [] (.number 5) (.number 2) 5 2
    (by decide) (by decide)

/-- C9: assigning a cell expression whose text differs from the current
text stores the new text, clears `ast`/`cached_value`/`error` and marks
the cell dirty; assigning the identical text leaves the cell exactly as
it was. -/
theorem c9_expression_setter_invalidation :
    (∀ (c : Cell) (v : Str), c.expression ≠ v →
        c.setExpression v = ⟨v, none, none, none, true⟩) ∧
    (∀ (c : Cell) (v : Str), c.expression = v → c.setExpression v = c) := by
  constructor
  · intro c v h
    simp [Cell.setExpression, if_pos h, Cell.invalidate]
  · intro c v h
    simp [Cell.setExpression, h]

/-- Witness for C9 at concrete cells: a changed text resets the cell, an
identical text is a no-op. -/
theorem c9_expression_setter_invalidation_witness :
    Cell.setExpression ⟨['1'], none, some 1, none, false⟩ ['2'] =
      ⟨['2'], none, none, none, true⟩ ∧
    Cell.setExpression ⟨['1'], none, some 1, none, false⟩ ['1'] =
      ⟨['1'], none, some 1, none, false⟩ :=
  ⟨c9_expression_setter_invalidation.1 ⟨['1'], none, some 1, none, false⟩
      ['2'] (by decide),
   c9_expression_setter_invalidation.2 ⟨['1'], none, some 1, none, false⟩
      ['1'] (by decide)⟩

/-- C10: for a formula cell with a cached value and no error, the display
value is TRUE/FALSE (by the cached value being nonzero/zero) precisely
when the lowercased formula text contains one of the substrings "and",
"or", "not", "=", "<", ">" — even when the substring only occurs inside a
cell reference, as in a formula referencing OR1 — and is the numeric
rendering of the cached value otherwise. -/
theorem c10_display_boolean_substring :
    (∀ (c : Cell) (v : ℚ), c.is_formula = true → c.error = none →
        c.cached_value = some v →
        c.getDisplayValue =
          (if [opAnd, opOr, opNot, opEq, opLt, opGt].any
              (fun op => strContains (c.formulaText.map toLowerChar) op) then
            (if v ≠ 0 then .boolTrue else .boolFalse)
           else .number v)) ∧
    Cell.getDisplayValue ⟨"=OR1+2".toList, none, some 5, none, false⟩ =
      .boolTrue ∧
    Cell.getDisplayValue ⟨"=AND2".toList, none, some 0, none, false⟩ =
      .boolFalse ∧
    Cell.getDisplayValue ⟨"=5+6".toList, none, some 11, none, false⟩ =
      .number 11 := by
  refine ⟨?_, by decide, by decide, by decide⟩
  intro c v h1 h2 h3
  unfold Cell.getDisplayValue
  rw [show c.has_error = false by simp [Cell.has_error, h2]]
  rw [show c.is_literal = false by simp [Cell.is_literal, h1]]
  rw [h3]
  rw [show c.is_boolean_expression =
      [opAnd, opOr, opNot, opEq, opLt, opGt].any
        (fun op => strContains (c.formulaText.map toLowerChar) op) by
    simp [Cell.is_boolean_expression, h1]]
  simp

/-- Witness for the quantified part of C10 at a concrete formula cell
referencing OR1. -/
theorem c10_display_boolean_substring_witness :
    Cell.getDisplayValue ⟨"=OR1+2".toList, none, some 5, none, false⟩ =
      (if [opAnd, opOr, opNot, opEq, opLt, opGt].any
          (fun op => strContains
            ((Cell.formulaText ⟨"=OR1+2".toList, none, some 5, none, false⟩).map
              toLowerChar) op) then
        (if (5 : ℚ) ≠ 0 then .boolTrue else .boolFalse)
       else .number 5) :=
  c10_display_boolean_substring.1 ⟨"=OR1+2".toList, none, some 5, none, false⟩
    5 (by decide) (by decide) (by decide)

/-! ## C2 infrastructure: character and string lemmas -/

lemma toNat_ofNatValid {n : Nat} (h : n < 55296) : (Char.ofNat n).toNat = n := by
  have hv : n.isValidChar := Or.inl (by omega)
  rw [Char.ofNat, dif_pos hv]
  show (BitVec.ofNatLt n _).toNat = n
  exact rfl

lemma dropWhile_eq_self_of_all {p : Char → Bool} {l : Str}
    (h : ∀ c ∈ l, p c = false) : l.dropWhile p = l := by
  cases l with
  | nil => rfl
  | cons c cs =>
    rw [List.dropWhile_cons, h c (by simp)]
    simp

lemma stripChars_eq_self {l : Str} (h : ∀ c ∈ l, isSpaceChar c = false) :
    stripChars l = l := by
  unfold stripChars
  rw [dropWhile_eq_self_of_all h]
  rw [dropWhile_eq_self_of_all (fun c hc => h c (List.mem_reverse.mp hc))]
  exact List.reverse_reverse l

lemma map_toUpperChar_eq_self {l : Str} (h : ∀ c ∈ l, c.toNat < 97) :
    l.map toUpperChar = l := by
  induction l with
  | nil => rfl
  | cons c cs ih =>
    have hc := h c (by simp)
    simp only [List.map_cons]
    rw [show toUpperChar c = c by unfold toUpperChar; rw [if_neg (by omega)]]
    rw [ih (fun x hx => h x (by simp [hx]))]

lemma takeWhile_append_of_all {p : Char → Bool} {xs ys : Str}
    (h : ∀ c ∈ xs, p c = true) :
    (xs ++ ys).takeWhile p = xs ++ ys.takeWhile p := by
  induction xs with
  | nil => rfl
  | cons c cs ih =>
    rw [List.cons_append, List.takeWhile_cons, h c (by simp)]
    simp [ih (fun x hx => h x (by simp [hx]))]

lemma dropWhile_append_of_all {p : Char → Bool} {xs ys : Str}
    (h : ∀ c ∈ xs, p c = true) :
    (xs ++ ys).dropWhile p = ys.dropWhile p := by
  induction xs with
  | nil => rfl
  | cons c cs ih =>
    rw [List.cons_append, List.dropWhile_cons, h c (by simp)]
    simp [ih (fun x hx => h x (by simp [hx]))]

lemma takeWhile_eq_nil_of_all {p : Char → Bool} {l : Str}
    (h : ∀ c ∈ l, p c = false) : l.takeWhile p = [] := by
  cases l with
  | nil => rfl
  | cons c cs =>
    rw [List.takeWhile_cons, h c (by simp)]
    simp

/-! ## C2 infrastructure: bijective base-26 column codec -/

lemma columnVal_append_singleton (l : Str) (a : Char) :
    columnVal (l ++ [a]) = columnVal l * 26 + (a.toNat - 64) := by
  unfold columnVal
  rw [List.foldl_append]
  rfl

lemma columnVal_foldl_ge (l : Str) (i : Nat) :
    i ≤ l.foldl (fun ix c => ix * 26 + (c.toNat - 64)) i := by
  induction l generalizing i with
  | nil => exact Nat.le_refl i
  | cons c cs ih =>
    simp only [List.foldl_cons]
    exact Nat.le_trans (by omega) (ih (i * 26 + (c.toNat - 64)))

lemma columnVal_pos {l : Str} (hne : l ≠ [])
    (hv : ∀ c ∈ l, isUpperAlpha c = true) : 1 ≤ columnVal l := by
  cases l with
  | nil => exact absurd rfl hne
  | cons c cs =>
    have hc : 65 ≤ c.toNat := by
      have := hv c (by simp)
      unfold isUpperAlpha at this
      have := of_decide_eq_true (Bool.and_elim_left this)
      omega
    unfold columnVal
    simp only [List.foldl_cons]
    exact Nat.le_trans (by omega) (columnVal_foldl_ge cs _)

lemma idxLoopAux_zero (f : Nat) (acc : Str) : idxLoopAux f 0 acc = acc := by
  cases f <;> rfl

lemma idxLoopAux_columnVal (s : Str) :
    (∀ c ∈ s, isUpperAlpha c = true) →
    ∀ (f : Nat) (acc : Str), columnVal s ≤ f →
      idxLoopAux f (columnVal s) acc = s ++ acc := by
  induction s using List.reverseRecOn with
  | nil =>
    intro _ f acc _
    exact idxLoopAux_zero f acc
  | append_singleton l a ih =>
    intro hv f acc hf
    have hva : isUpperAlpha a = true := hv a (by simp)
    have ha : 65 ≤ a.toNat ∧ a.toNat ≤ 90 := by
      unfold isUpperAlpha at hva
      constructor
      · exact of_decide_eq_true (Bool.and_elim_left hva)
      · exact of_decide_eq_true (Bool.and_elim_right hva)
    have hvl : ∀ c ∈ l, isUpperAlpha c = true :=
      fun c hc => hv c (by simp [hc])
    set d := a.toNat - 64 with hd
    have hd1 : 1 ≤ d := by omega
    have hd26 : d ≤ 26 := by omega
    rw [columnVal_append_singleton] at hf ⊢
    have hval : columnVal l * 26 + d = Nat.succ (columnVal l * 26 + (d - 1)) := by
      omega
    obtain ⟨f2, rfl⟩ : ∃ f2, f = Nat.succ f2 := by
      cases f with
      | zero => omega
      | succ f2 => exact ⟨f2, rfl⟩
    rw [hval]
    show idxLoopAux (Nat.succ f2) (Nat.succ (columnVal l * 26 + (d - 1))) acc
      = (l ++ [a]) ++ acc
    rw [show idxLoopAux (Nat.succ f2) (Nat.succ (columnVal l * 26 + (d - 1))) acc
        = idxLoopAux f2 ((columnVal l * 26 + (d - 1)) / 26)
            (Char.ofNat (65 + (columnVal l * 26 + (d - 1)) % 26) :: acc)
        from rfl]
    have hmod : (columnVal l * 26 + (d - 1)) % 26 = d - 1 := by
      rw [Nat.mul_comm (columnVal l) 26, Nat.mul_add_mod]
      exact Nat.mod_eq_of_lt (by omega)
    have hdiv : (columnVal l * 26 + (d - 1)) / 26 = columnVal l := by
      rw [Nat.mul_comm (columnVal l) 26, Nat.mul_add_div (by omega)]
      rw [Nat.div_eq_of_lt (by omega)]
      omega
    rw [hmod, hdiv]
    rw [show Char.ofNat (65 + (d - 1)) = a by
      rw [show 65 + (d - 1) = a.toNat by omega]
      exact Char.ofNat_toNat a]
    rw [ih hvl f2 (a :: acc) (by omega)]
    simp

lemma indexToColumn_columnToIndex {col : Str} (hne : col ≠ [])
    (hv : ∀ c ∈ col, isUpperAlpha c = true) :
    indexToColumn (columnToIndex col) = col := by
  unfold indexToColumn columnToIndex
  have hpos := columnVal_pos hne hv
  rw [show columnVal col - 1 + 1 = columnVal col from by omega]
  rw [idxLoopAux_columnVal col hv (columnVal col) [] (Nat.le_refl _)]
  simp

/-! ## C2 infrastructure: decimal row codec -/

lemma natDigitsAux_all_digits (f : Nat) :
    ∀ (n : Nat) (c : Char), c ∈ natDigitsAux f n → isDigitChar c = true := by
  induction f with
  | zero => intro n c hc; simp [natDigitsAux] at hc
  | succ f ih =>
    intro n c hc
    unfold natDigitsAux at hc
    by_cases hn : n = 0
    · rw [if_pos hn] at hc; simp at hc
    · rw [if_neg hn] at hc
      rcases List.mem_append.mp hc with h1 | h2
      · exact ih (n / 10) c h1
      · have : c = Char.ofNat (48 + n % 10) := by simpa using h2
        subst this
        unfold isDigitChar
        have h10 : n % 10 < 10 := Nat.mod_lt n (by omega)
        rw [toNat_ofNatValid (by omega)]
        simp only [Bool.and_eq_true, decide_eq_true_eq]
        omega

lemma natRepr_all_digits (n : Nat) :
    ∀ c ∈ natRepr n, isDigitChar c = true := by
  intro c hc
  unfold natRepr at hc
  by_cases hn : n = 0
  · rw [if_pos hn] at hc
    have : c = '0' := by simpa using hc
    subst this; decide
  · rw [if_neg hn] at hc
    exact natDigitsAux_all_digits n n c hc

lemma natRepr_ne_nil (n : Nat) : natRepr n ≠ [] := by
  unfold natRepr
  by_cases hn : n = 0
  · rw [if_pos hn]; simp
  · rw [if_neg hn]
    unfold natDigits
    obtain ⟨m, rfl⟩ : ∃ m, n = Nat.succ m := by
      cases n with
      | zero => exact absurd rfl hn
      | succ m => exact ⟨m, rfl⟩
    unfold natDigitsAux
    rw [if_neg hn]
    simp

lemma digitsToNat_append_singleton (xs : Str) (c : Char) :
    digitsToNat (xs ++ [c]) = digitsToNat xs * 10 + (c.toNat - 48) := by
  unfold digitsToNat
  rw [List.foldl_append]
  rfl

lemma digitsToNat_natDigitsAux (f : Nat) :
    ∀ n, n ≤ f → digitsToNat (natDigitsAux f n) = n := by
  induction f with
  | zero =>
    intro n hn
    have : n = 0 := by omega
    subst this
    rfl
  | succ f ih =>
    intro n hn
    unfold natDigitsAux
    by_cases h0 : n = 0
    · rw [if_pos h0]; simp [digitsToNat, h0]
    · rw [if_neg h0]
      rw [digitsToNat_append_singleton]
      have hlt : n / 10 < n := Nat.div_lt_self (by omega) (by omega)
      rw [ih (n / 10) (by omega)]
      rw [toNat_ofNatValid (by omega)]
      omega

lemma digitsToNat_natRepr (n : Nat) : digitsToNat (natRepr n) = n := by
  unfold natRepr
  by_cases hn : n = 0
  · rw [if_pos hn, hn]; decide
  · rw [if_neg hn]
    exact digitsToNat_natDigitsAux n n (Nat.le_refl n)

/-! ## C2: the round-trip theorem -/

lemma isUpperAlpha_bounds {c : Char} (h : isUpperAlpha c = true) :
    65 ≤ c.toNat ∧ c.toNat ≤ 90 := by
  unfold isUpperAlpha at h
  exact ⟨of_decide_eq_true (Bool.and_elim_left h),
    of_decide_eq_true (Bool.and_elim_right h)⟩

lemma isDigitChar_bounds {c : Char} (h : isDigitChar c = true) :
    48 ≤ c.toNat ∧ c.toNat ≤ 57 := by
  unfold isDigitChar at h
  exact ⟨of_decide_eq_true (Bool.and_elim_left h),
    of_decide_eq_true (Bool.and_elim_right h)⟩

lemma fromString_toStr {ref : CellRefV} (hne : ref.column ≠ [])
    (hv : ∀ c ∈ ref.column, isUpperAlpha c = true) (hrow : 1 ≤ ref.row) :
    fromString ref.toStr = some ref := by
  unfold fromString CellRefV.toStr
  have hdig : ∀ c ∈ natRepr ref.row, isDigitChar c = true :=
    natRepr_all_digits ref.row
  have hnospace : ∀ c ∈ ref.column ++ natRepr ref.row, isSpaceChar c = false := by
    intro c hc
    have h48 : 48 ≤ c.toNat := by
      rcases List.mem_append.mp hc with h1 | h2
      · exact Nat.le_trans (by omega) (isUpperAlpha_bounds (hv c h1)).1
      · exact (isDigitChar_bounds (hdig c h2)).1
    unfold isSpaceChar
    have h32 : c ≠ ' ' := by
      intro he; subst he; simp at h48
    have h9 : c ≠ '\t' := by
      intro he; subst he; simp at h48
    have h10 : c ≠ '\n' := by
      intro he; subst he; simp at h48
    have h13 : c ≠ '\r' := by
      intro he; subst he; simp at h48
    simp [h32, h9, h10, h13]
  have hlow : ∀ c ∈ ref.column ++ natRepr ref.row, c.toNat < 97 := by
    intro c hc
    rcases List.mem_append.mp hc with h1 | h2
    · exact Nat.lt_of_le_of_lt (isUpperAlpha_bounds (hv c h1)).2 (by omega)
    · exact Nat.lt_of_le_of_lt (isDigitChar_bounds (hdig c h2)).2 (by omega)
  rw [stripChars_eq_self hnospace, map_toUpperChar_eq_self hlow]
  simp only []
  have hdignotupper : ∀ c ∈ natRepr ref.row, isUpperAlpha c = false := by
    intro c hc
    have := (isDigitChar_bounds (hdig c hc)).2
    unfold isUpperAlpha
    simp only [Bool.and_eq_true, decide_eq_true_eq, Bool.and_eq_false_iff]
    left
    simp only [decide_eq_false_iff_not]
    omega
  rw [takeWhile_append_of_all hv, dropWhile_append_of_all hv]
  rw [takeWhile_eq_nil_of_all hdignotupper,
    dropWhile_eq_self_of_all hdignotupper]
  rw [List.append_nil]
  rw [if_pos ⟨hne, natRepr_ne_nil ref.row, List.all_eq_true.mpr hdig⟩]
  unfold mkCellRef
  rw [digitsToNat_natRepr]
  rw [if_pos ⟨hne, List.all_eq_true.mpr hv, hrow⟩]

/-- C2: for every valid cell reference (non-empty all-uppercase column,
row ≥ 1), converting to 0-based indices and back with bijective base-26
column numbering reproduces the reference, and rendering to its string
form and re-parsing that string reproduces the reference. -/
theorem c2_cell_reference_round_trips :
    ∀ (ref : CellRefV), ref.column ≠ [] →
      (∀ c ∈ ref.column, isUpperAlpha c = true) → 1 ≤ ref.row →
      fromIndices ref.toIndices.1 ref.toIndices.2 = some ref ∧
      fromString ref.toStr = some ref := by
  intro ref hne hv hrow
  constructor
  · unfold fromIndices CellRefV.toIndices
    simp only
    rw [indexToColumn_columnToIndex hne hv]
    rw [show ref.row - 1 + 1 = ref.row from by omega]
    unfold mkCellRef
    rw [if_pos ⟨hne, List.all_eq_true.mpr hv, hrow⟩]
  · exact fromString_toStr hne hv hrow

/-- Witness for C2 at the concrete reference AB10 (column index 27, row
index 9). -/
theorem c2_cell_reference_round_trips_witness :
    fromIndices (CellRefV.toIndices ⟨"AB".toList, 10⟩).1
        (CellRefV.toIndices ⟨"AB".toList, 10⟩).2 = some ⟨"AB".toList, 10⟩ ∧
    fromString (CellRefV.toStr ⟨"AB".toList, 10⟩) = some ⟨"AB".toList, 10⟩ :=
  c2_cell_reference_round_trips ⟨"AB".toList, 10⟩ (by decide)
    (by decide) (by decide)

/-! ## C8 infrastructure -/

lemma except_bind_ok {ε α β : Type} {e : Except ε α} {k : α → Except ε β}
    {b : β} (h : (e >>= k) = .ok b) : ∃ a, e = .ok a ∧ k a = .ok b := by
  cases e with
  | error err => simp [Bind.bind, Except.bind] at h
  | ok a => exact ⟨a, rfl, by simpa [Bind.bind, Except.bind] using h⟩

lemma applyAssignment_expression (e : Str) (c0 : Cell) :
    (applyAssignment e c0).expression = e := by
  unfold applyAssignment
  have hbase : (c0.setExpression e).expression = e := by
    unfold Cell.setExpression
    by_cases h : c0.expression ≠ e
    · rw [if_pos h]
    · rw [if_neg h]
      simpa using h
  set cell := c0.setExpression e with hc
  by_cases h1 : cell.is_empty
  · simp [if_pos h1, Cell.setCachedValue, Cell.setError, hbase]
  · rw [if_neg (by simpa using h1)]
    by_cases h2 : cell.is_literal
    · simp [if_pos h2, Cell.setCachedValue, Cell.setError, hbase]
    · rw [if_neg (by simpa using h2)]
      by_cases h3 : cell.is_formula
      · rw [if_pos (by simpa using h3)]
        cases parseExpr cell.formulaText with
        | ok a => simp [Cell.setError, hbase]
        | error err => simp [Cell.setCachedValue, hbase]
      · rw [if_neg (by simpa using h3)]
        exact hbase

lemma updateCellList_not_mem {key : Nat × Nat} {f : Cell → Cell}
    {l : List ((Nat × Nat) × Cell)} (h : key ∉ l.map Prod.fst) :
    updateCellList key f l = l ++ [(key, f emptyCell)] := by
  induction l with
  | nil => rfl
  | cons p rest ih =>
    unfold updateCellList
    rw [if_neg (by
      intro he
      exact h (by simp [he]))]
    rw [ih (by
      intro hm
      exact h (by simp [hm]))]
    simp

lemma setCellExpression_fresh {t : Table} {r c : Nat} {e : Str}
    (hmem : (r, c) ∉ t.cells.map Prod.fst)
    (hr : r < t.rows) (hc : c < t.columns) :
    setCellExpression t r c e =
      .ok { t with cells := t.cells ++ [((r, c), applyAssignment e emptyCell)] } := by
  unfold setCellExpression Table.modifyCell
  rw [if_pos ⟨hr, hc⟩]
  rw [updateCellList_not_mem hmem]
  rfl

/-- Replaying a list of snapshot entries with pairwise-distinct in-bounds
positions onto a table none of whose keys collide with them appends one
assigned cell per entry, in order. -/
lemma load_fold (entries : List SnapshotEntry) :
    ∀ (t : Table),
      (∀ en ∈ entries, en.row < t.rows ∧ en.col < t.columns ∧
        (en.row, en.col) ∉ t.cells.map Prod.fst) →
      entries.Pairwise (fun a b => (a.row, a.col) ≠ (b.row, b.col)) →
      entries.foldlM
          (fun acc en => setCellExpression acc en.row en.col en.expression) t =
        .ok { rows := t.rows, columns := t.columns,
              cells := t.cells ++ entries.map
                (fun en => ((en.row, en.col), applyAssignment en.expression emptyCell)) } := by
  induction entries with
  | nil =>
    intro t _ _
    show Except.ok t = _
    cases t
    simp
  | cons en rest ih =>
    intro t hb hp
    obtain ⟨hr, hc, hmem⟩ := hb en (by simp)
    rw [List.foldlM_cons]
    rw [setCellExpression_fresh hmem hr hc]
    rw [show ((Except.ok { t with cells := t.cells ++ [((en.row, en.col), applyAssignment en.expression emptyCell)] } : Except Unit Table) >>= fun acc =>
        rest.foldlM (fun acc en => setCellExpression acc en.row en.col en.expression) acc) =
      rest.foldlM (fun acc en => setCellExpression acc en.row en.col en.expression)
        { t with cells := t.cells ++ [((en.row, en.col), applyAssignment en.expression emptyCell)] } from rfl]
    rw [ih _ ?_ (List.Pairwise.sublist (List.sublist_cons_self en rest) hp)]
    · simp
    · intro en2 hen2
      obtain ⟨h2r, h2c, h2mem⟩ := hb en2 (by simp [hen2])
      refine ⟨h2r, h2c, ?_⟩
      simp only [List.map_append, List.mem_append]
      intro hin
      rcases hin with hin | hin
      · exact h2mem hin
      · have hne := (List.pairwise_cons.mp hp).1 en2 hen2
        simp at hin
        exact hne (by rw [hin.1, hin.2])

lemma is_empty_iff_expression {c : Cell} :
    c.is_empty = true ↔ stripChars c.expression = [] := by
  unfold Cell.is_empty
  exact decide_eq_true_iff

/-- Exporting the cells produced by replaying non-blank snapshot entries
returns exactly those entries. -/
lemma exportCells_of_assign (entries : List SnapshotEntry)
    (h : ∀ en ∈ entries, stripChars en.expression ≠ []) :
    (List.filterMap (fun p =>
        if p.2.is_empty then none
        else some (⟨p.1.1, p.1.2, p.2.expression⟩ : SnapshotEntry))
      (entries.map (fun en =>
        ((en.row, en.col), applyAssignment en.expression emptyCell)))) = entries := by
  induction entries with
  | nil => rfl
  | cons en rest ih =>
    simp only [List.map_cons, List.filterMap_cons]
    have hexp := applyAssignment_expression en.expression emptyCell
    have hne : (applyAssignment en.expression emptyCell).is_empty = false := by
      rw [show (applyAssignment en.expression emptyCell).is_empty =
          decide (stripChars en.expression = []) from by
        unfold Cell.is_empty
        rw [hexp]]
      simpa using h en (by simp)
    rw [hne]
    simp only [hexp]
    rw [ih (fun x hx => h x (by simp [hx]))]
    simp

/-- Model of `updateCellList` with an expression-preserving update function does
not change the export view (an update in place keeps position and
expression; a materialised fresh cell has an empty expression and is
filtered out). -/
lemma exportList_updateCellList {key : Nat × Nat} {f : Cell → Cell}
    (hf : ∀ c, (f c).expression = c.expression)
    (l : List ((Nat × Nat) × Cell)) :
    (updateCellList key f l).filterMap (fun p =>
        if p.2.is_empty then none
        else some (⟨p.1.1, p.1.2, p.2.expression⟩ : SnapshotEntry)) =
      l.filterMap (fun p =>
        if p.2.is_empty then none
        else some (⟨p.1.1, p.1.2, p.2.expression⟩ : SnapshotEntry)) := by
  induction l with
  | nil =>
    unfold updateCellList
    have he : (f emptyCell).is_empty = true := by
      unfold Cell.is_empty
      rw [hf emptyCell]
      rfl
    simp [List.filterMap_cons, he]
  | cons p rest ih =>
    unfold updateCellList
    by_cases hk : p.1 = key
    · rw [if_pos hk]
      simp only [List.filterMap_cons]
      have hemp : (f p.2).is_empty = p.2.is_empty := by
        unfold Cell.is_empty
        rw [hf p.2]
      rw [hemp, hf p.2]
    · rw [if_neg hk]
      simp only [List.filterMap_cons]
      rw [ih]

lemma exportCells_modifyCell {t t2 : Table} {r c : Nat} {f : Cell → Cell}
    (hf : ∀ cl, (f cl).expression = cl.expression)
    (h : t.modifyCell r c f = .ok t2) :
    exportCells t2 = exportCells t ∧ t2.rows = t.rows ∧ t2.columns = t.columns := by
  unfold Table.modifyCell at h
  by_cases hb : r < t.rows ∧ c < t.columns
  · rw [if_pos hb] at h
    have : t2 = { t with cells := updateCellList (r, c) f t.cells } := by
      injection h with h2
      exact h2.symm
    subst this
    exact ⟨exportList_updateCellList hf t.cells, rfl, rfl⟩
  · rw [if_neg hb] at h
    exact absurd h (by simp [throw, throwThe, MonadExceptOf.throw])

lemma calcCell_export {t t2 : Table} {r c : Nat}
    (h : calcCell t r c = .ok t2) :
    exportCells t2 = exportCells t ∧ t2.rows = t.rows ∧ t2.columns = t.columns := by
  unfold calcCell at h
  obtain ⟨cell, hget, hbody⟩ := except_bind_ok h
  by_cases hskip : cell.is_empty = true ∨ cell.ast = none
  · rw [if_pos hskip] at hbody
    have : t2 = t := by
      injection hbody with h2
      exact h2.symm
    subst this
    exact ⟨rfl, rfl, rfl⟩
  · rw [if_neg hskip] at hbody
    split at hbody
    · have : t2 = t := by
        injection hbody with h2
        exact h2.symm
      subst this
      exact ⟨rfl, rfl, rfl⟩
    · split at hbody
      · exact absurd hbody (by simp [throw, throwThe, MonadExceptOf.throw])
      · split at hbody
        · exact exportCells_modifyCell
            (fun cl => by simp [Cell.setCachedValue, Cell.setError]) hbody
        · exact exportCells_modifyCell
            (fun cl => by simp [Cell.setCachedValue, Cell.setError]) hbody

lemma calculateAll_export_aux (l : List (Nat × Nat × Cell)) :
    ∀ {t t2 : Table},
      (l.foldlM (fun acc trip =>
        match trip with
        | (r, c, cell) =>
          if cell.is_formula && cell.ast.isSome then calcCell acc r c
          else pure acc) t) = .ok t2 →
      exportCells t2 = exportCells t ∧ t2.rows = t.rows ∧ t2.columns = t.columns := by
  induction l with
  | nil =>
    intro t t2 h
    have : t2 = t := by
      injection h with h2
      exact h2.symm
    subst this
    exact ⟨rfl, rfl, rfl⟩
  | cons trip rest ih =>
    intro t t2 h
    rw [List.foldlM_cons] at h
    obtain ⟨t1, hstep, hrest⟩ := except_bind_ok h
    obtain ⟨he, hr, hc⟩ := ih hrest
    obtain ⟨r0, c0, cell0⟩ := trip
    by_cases hfa : cell0.is_formula && cell0.ast.isSome
    · rw [show (match (r0, c0, cell0) with
          | (r, c, cell) =>
            if cell.is_formula && cell.ast.isSome then calcCell t r c
            else pure t) =
          (if cell0.is_formula && cell0.ast.isSome then calcCell t r0 c0
           else pure t) from rfl] at hstep
      rw [if_pos hfa] at hstep
      obtain ⟨he1, hr1, hc1⟩ := calcCell_export hstep
      exact ⟨he.trans he1, hr.trans hr1, hc.trans hc1⟩
    · rw [show (match (r0, c0, cell0) with
          | (r, c, cell) =>
            if cell.is_formula && cell.ast.isSome then calcCell t r c
            else pure t) =
          (if cell0.is_formula && cell0.ast.isSome then calcCell t r0 c0
           else pure t) from rfl] at hstep
      rw [if_neg hfa] at hstep
      have : t1 = t := by
        injection hstep with h2
        exact h2.symm
      subst this
      exact ⟨he, hr, hc⟩

lemma calculateAll_export {t t2 : Table} (h : calculateAll t = .ok t2) :
    exportCells t2 = exportCells t ∧ t2.rows = t.rows ∧ t2.columns = t.columns := by
  unfold calculateAll at h
  exact calculateAll_export_aux (t.getAllCells) h

/-- A well-formed persistence snapshot: positive dimensions,
pairwise-distinct in-bounds cell positions, and no blank (empty or
whitespace-only) expressions. -/
def wellFormedSnapshot (d : Snapshot) : Prop :=
  1 ≤ d.rows ∧ 1 ≤ d.columns ∧
  d.cells.Pairwise (fun a b => (a.row, a.col) ≠ (b.row, b.col)) ∧
  ∀ en ∈ d.cells, en.row < d.rows ∧ en.col < d.columns ∧
    stripChars en.expression ≠ []

/-- C8 counterexample scenario: A1="=B1", B1="=C1", C1="x" (a non-numeric
literal), one evaluation pass (A1 and B1 record errors), then C1 is
changed to "5" and a second pass runs.  During the second pass A1 is
evaluated BEFORE B1 has been re-evaluated, so the resolver still sees
B1's stale error from the first pass and A1 records an error again, even
though B1 ends the very same pass with the value 5. -/
def c8StaleTable : Except Unit Table := do
  let t1 ← setCellExpression ⟨1, 3, []⟩ 0 0 "=B1".toList
  let t2 ← setCellExpression t1 0 1 "=C1".toList
  let t3 ← setCellExpression t2 0 2 "x".toList
  let t4 ← calculateAll t3
  let t5 ← setCellExpression t4 0 2 "5".toList
  calculateAll t5

/-- C8 counterexample: exporting the stale-state table and loading the
snapshot back does NOT reproduce the same cached values/errors — the
original table's A1 holds an error and no value after its evaluation
pass, while the reloaded table's A1 holds the cached value 5 and no
error after the load's evaluation pass. -/
theorem c8_counterexample_stale_error :
    (c8StaleTable.map (fun t => (t.findCell 0 0).map
        (fun cl => (cl.cached_value, cl.error.isSome))))
      = .ok (some (none, true)) ∧
    ((do
        let t ← c8StaleTable
        loadTable (exportTable t) : Except Unit Table).map
          (fun t => (t.findCell 0 0).map
            (fun cl => (cl.cached_value, cl.error.isSome))))
      = .ok (some (some 5, false)) := by
  constructor <;> decide

/-- C8 (amended): for every table state produced by loading a well-formed
snapshot (positive dimensions, distinct in-bounds positions, no blank
expressions), exporting yields back exactly the loaded snapshot — the
same cell expressions at the same positions — and therefore re-loading
that export reproduces the identical table state, including every cached
value and error produced by the load's evaluation pass.  (The
restriction to freshly loaded tables is forced by the counterexample: a
table carrying stale errors from an earlier pass evaluates differently
from its reloaded copy, and whitespace-only expressions are dropped by
export.) -/
theorem c8_export_load_round_trip :
    ∀ (d : Snapshot) (t : Table), wellFormedSnapshot d →
      loadTable d = .ok t →
      exportTable t = d ∧ loadTable (exportTable t) = .ok t := by
  intro d t hwf hload
  obtain ⟨hrow, hcol, hpair, hbounds⟩ := hwf
  have hmain : exportTable t = d := by
    unfold loadTable at hload
    rw [if_neg (by omega : ¬(d.rows < 1 ∨ d.columns < 1))] at hload
    simp only [pure_bind] at hload
    rw [load_fold d.cells ⟨d.rows, d.columns, []⟩
      (fun en hen => ⟨(hbounds en hen).1, (hbounds en hen).2.1, by simp⟩)
      hpair] at hload
    have hcalc : calculateAll
        { rows := d.rows, columns := d.columns,
          cells := [] ++ d.cells.map (fun en =>
            ((en.row, en.col), applyAssignment en.expression emptyCell)) } = .ok t := by
      exact hload
    obtain ⟨he, hr, hc⟩ := calculateAll_export hcalc
    unfold exportTable
    rw [hr, hc, he]
    show (⟨d.rows, d.columns, exportCells _⟩ : Snapshot) = d
    unfold exportCells
    simp only [List.nil_append]
    rw [exportCells_of_assign d.cells (fun en hen => (hbounds en hen).2.2)]
  exact ⟨hmain, by rw [hmain]; exact hload⟩

/-- Witness for C8 at a concrete snapshot (a formula referencing a
literal): the load succeeds and the export reproduces the snapshot. -/
theorem c8_export_load_round_trip_witness :
    exportTable ⟨2, 2,
      [((0, 0), applyAssignment "=A2+1".toList emptyCell |>.setCachedValue (some 5) |>.setError none),
       ((1, 0), applyAssignment "4".toList emptyCell)]⟩ =
      ⟨2, 2, [⟨0, 0, "=A2+1".toList⟩, ⟨1, 0, "4".toList⟩]⟩ ∧
    loadTable ⟨2, 2, [⟨0, 0, "=A2+1".toList⟩, ⟨1, 0, "4".toList⟩]⟩ =
      .ok ⟨2, 2,
      [((0, 0), applyAssignment "=A2+1".toList emptyCell |>.setCachedValue (some 5) |>.setError none),
       ((1, 0), applyAssignment "4".toList emptyCell)]⟩ :=
  c8_export_load_round_trip ⟨2, 2, [⟨0, 0, "=A2+1".toList⟩, ⟨1, 0, "4".toList⟩]⟩
    _ (by constructor; · decide
          constructor; · decide
          constructor; · decide
          decide)
    (by decide)
